import Mathlib

/-!
Verification of the `shmem` shared-memory queue (src/csrc/shmem.cpp, shmem.h).

The shared segment holds a `ControlBlock` (capacity, slot size, head, tail,
count) followed by `max_elements` slots of `element_size` bytes each.  We model
the data region as a byte memory `Nat → Nat` (offset to byte value), and the
two named POSIX semaphores as: the items counting semaphore as a `Nat` value in
the state, and the binary mutex semaphore through an explicit event trace (the
sequential model always acquires it, except for an injected failure flag
`mutexFail` that models `sem_wait` returning -1 with `errno ≠ EINTR`).

Operations model the initialized-handle case (`m_addr ≠ nullptr`); the
null-handle behaviour of the accessors and `close`/move is modelled separately
by `SMQueueHandle` below.
-/

namespace Shmem

/-- Events on the two semaphores, in program order: mutex `sem_wait` (success /
failure), mutex `sem_post`, items `sem_post`, items `sem_trywait` (success /
failure), items `sem_wait`. -/
inductive Ev
  | mWait
  | mWaitFail
  | mPost
  | iPost
  | iTryOk
  | iTryFail
  | iWait
deriving DecidableEq, Repr

/-- Byte memory of the data region: `memWrite base len src m` models
`memcpy(buf + base, src, len)` (source shmem.cpp line 227 / 274 / 314 copy
`element_size` bytes at `index * element_size`). -/
def memWrite (base len : Nat) (src : List Nat) (m : Nat → Nat) : Nat → Nat :=
  fun j => if base ≤ j ∧ j < base + len then src.getD (j - base) 0 else m j

/-- Read `len` bytes starting at `base`. -/
def memRead (base len : Nat) (m : Nat → Nat) : List Nat :=
  (List.range len).map (fun k => m (base + k))

/-- The control block of shmem.h lines 96-104 (the two semaphore-name buffers
are modelled separately, `createSemNames` below). -/
structure ControlBlock where
  max_elements : Nat
  element_size : Nat
  head : Nat
  tail : Nat
  count : Nat
deriving Repr

/-- State of an initialized queue: control block, data-region bytes, and the
value of the items counting semaphore. -/
structure QueueState where
  cb : ControlBlock
  mem : Nat → Nat
  items : Nat

/-- Fresh queue as initialized by `create` (shmem.cpp lines 52-57:
`head = tail = count = 0`, zeroed segment, items semaphore created with
initial value 0). -/
def freshQueue (N E : Nat) : QueueState :=
  ⟨⟨N, E, 0, 0, 0⟩, fun _ => 0, 0⟩

/-- SMQueue::push, shmem.cpp lines 195-241.  `mutexFail` injects a failing
`sem_wait(m_mutex)` (the call throws, modelled as `none`).  When the queue is
full the oldest element is dropped: tail advances, count decrements, and a
best-effort `sem_trywait(m_items)` decrements the items value if positive
(silently doing nothing at zero — `Nat` subtraction).  Then `element_size`
bytes are copied to the slot at `head`, head advances, count increments, and
the items semaphore is posted.  Returns `some (!dropped, newState)`. -/
def push (mutexFail : Bool) (data : List Nat) (s : QueueState) :
    Option (Bool × QueueState) × List Ev :=
  if mutexFail then (none, [Ev.mWaitFail])
  else if s.cb.count ≥ s.cb.max_elements then
    -- drop the oldest message by advancing the tail
    let cb1 : ControlBlock :=
      { s.cb with tail := (s.cb.tail + 1) % s.cb.max_elements, count := s.cb.count - 1 }
    let mem1 := memWrite (cb1.head * cb1.element_size) cb1.element_size data s.mem
    let cb2 : ControlBlock :=
      { cb1 with head := (cb1.head + 1) % cb1.max_elements, count := cb1.count + 1 }
    (some (false, ⟨cb2, mem1, (s.items - 1) + 1⟩),
     [Ev.mWait, if 0 < s.items then Ev.iTryOk else Ev.iTryFail, Ev.iPost, Ev.mPost])
  else
    let mem1 := memWrite (s.cb.head * s.cb.element_size) s.cb.element_size data s.mem
    let cb2 : ControlBlock :=
      { s.cb with head := (s.cb.head + 1) % s.cb.max_elements, count := s.cb.count + 1 }
    (some (true, ⟨cb2, mem1, s.items + 1⟩), [Ev.mWait, Ev.iPost, Ev.mPost])

/-- SMQueue::try_pop, shmem.cpp lines 287-323.  A failed non-blocking claim on
the items semaphore returns false at once (no mutex event, state untouched).
If the claim succeeds but the mutex wait fails, the items semaphore is
re-posted and false is returned.  On success the slot at `tail` is copied out
(returned as `some bytes`; `none` models `return false` with the caller's
buffer untouched), tail advances and count decrements. -/
def try_pop (mutexFail : Bool) (s : QueueState) :
    Option (List Nat) × QueueState × List Ev :=
  if s.items = 0 then (none, s, [Ev.iTryFail])
  else if mutexFail then
    (none, { s with items := (s.items - 1) + 1 }, [Ev.iTryOk, Ev.mWaitFail, Ev.iPost])
  else
    let out := memRead (s.cb.tail * s.cb.element_size) s.cb.element_size s.mem
    let cb2 : ControlBlock :=
      { s.cb with tail := (s.cb.tail + 1) % s.cb.max_elements, count := s.cb.count - 1 }
    (some out, ⟨cb2, s.mem, s.items - 1⟩, [Ev.iTryOk, Ev.mWait, Ev.mPost])

/-- SMQueue::pop, shmem.cpp lines 244-284.  `sem_wait(m_items)` suspends when
the items value is zero; the sequential model returns `none` for that case (no
state transition happens).  Otherwise identical to the success path of
`try_pop`, with a blocking items wait. -/
def pop (mutexFail : Bool) (s : QueueState) :
    Option (Option (List Nat) × QueueState × List Ev) :=
  if s.items = 0 then none
  else if mutexFail then
    some (none, { s with items := (s.items - 1) + 1 }, [Ev.iWait, Ev.mWaitFail, Ev.iPost])
  else
    let out := memRead (s.cb.tail * s.cb.element_size) s.cb.element_size s.mem
    let cb2 : ControlBlock :=
      { s.cb with tail := (s.cb.tail + 1) % s.cb.max_elements, count := s.cb.count - 1 }
    some (some out, ⟨cb2, s.mem, s.items - 1⟩, [Ev.iWait, Ev.mWait, Ev.mPost])

/-- State after a successful `push` with no injected failure. -/
def pushState (data : List Nat) (s : QueueState) : QueueState :=
  match push false data s with
  | (some (_, s'), _) => s'
  | (none, _) => s

/-- Return value of `push` with no injected failure (`true` iff nothing was
dropped). -/
def pushRet (data : List Nat) (s : QueueState) : Bool :=
  match push false data s with
  | (some (b, _), _) => b
  | (none, _) => true

/-- Push a list of payloads in order. -/
def pushList (ds : List (List Nat)) (s : QueueState) : QueueState :=
  ds.foldl (fun s d => pushState d s) s

/-- Drain by calling `try_pop` up to `k` times, collecting successful outputs
and stopping at the first failure. -/
def drainN : Nat → QueueState → List (List Nat) × QueueState
  | 0, s => ([], s)
  | k + 1, s =>
    match try_pop false s with
    | (some out, s', _) => (out :: (drainN k s').1, (drainN k s').2)
    | (none, s', _) => ([], s')

/-! ### Basic memory lemmas -/

theorem memRead_memWrite (b : Nat) (src : List Nat) (m : Nat → Nat) (len : Nat)
    (h : src.length = len) : memRead b len (memWrite b len src m) = src := by
  subst h
  apply List.ext_getElem
  · simp [memRead]
  · intro i h1 h2
    simp only [memRead, memWrite, List.getElem_map, List.getElem_range]
    rw [if_pos (by omega)]
    rw [Nat.add_sub_cancel_left]
    exact List.getD_eq_getElem src 0 h2

theorem memRead_memWrite_of_disjoint (b1 len1 b2 len2 : Nat) (src : List Nat)
    (m : Nat → Nat) (h : b1 + len1 ≤ b2 ∨ b2 + len2 ≤ b1) :
    memRead b1 len1 (memWrite b2 len2 src m) = memRead b1 len1 m := by
  unfold memRead memWrite
  apply List.map_congr_left
  intro k hk
  rw [List.mem_range] at hk
  rw [if_neg (by omega)]

/-! ### Unfolding lemmas for push -/

theorem pushState_not_full (N E h t c it : Nat) (m : Nat → Nat) (d : List Nat)
    (hc : c < N) :
    pushState d ⟨⟨N, E, h, t, c⟩, m, it⟩ =
      ⟨⟨N, E, (h + 1) % N, t, c + 1⟩, memWrite (h * E) E d m, it + 1⟩ := by
  unfold pushState push
  simp [Nat.not_le.mpr hc]

theorem pushRet_not_full (N E h t c it : Nat) (m : Nat → Nat) (d : List Nat)
    (hc : c < N) : pushRet d ⟨⟨N, E, h, t, c⟩, m, it⟩ = true := by
  unfold pushRet push
  simp [Nat.not_le.mpr hc]

theorem pushState_full (N E h t c it : Nat) (m : Nat → Nat) (d : List Nat)
    (hc : N ≤ c) :
    pushState d ⟨⟨N, E, h, t, c⟩, m, it⟩ =
      ⟨⟨N, E, (h + 1) % N, (t + 1) % N, (c - 1) + 1⟩, memWrite (h * E) E d m,
        (it - 1) + 1⟩ := by
  unfold pushState push
  simp [hc]

theorem pushRet_full (N E h t c it : Nat) (m : Nat → Nat) (d : List Nat)
    (hc : N ≤ c) : pushRet d ⟨⟨N, E, h, t, c⟩, m, it⟩ = false := by
  unfold pushRet push
  simp [hc]

/-! ### C6: round trip on an empty queue -/

/-- C6: for every byte pattern `p` of length `element_size` and every
empty-queue state (any `head = tail` position `h < N` with `count = 0`),
pushing `p` and then popping yields exactly the bytes of `p` back (and the
expected successor state). -/
theorem push_pop_roundtrip (N E h it : Nat) (m : Nat → Nat) (p : List Nat)
    (hh : h < N) (hp : p.length = E) :
    pop false (pushState p ⟨⟨N, E, h, h, 0⟩, m, it⟩) =
      some (some p,
        ⟨⟨N, E, (h + 1) % N, (h + 1) % N, 0⟩, memWrite (h * E) E p m, it⟩,
        [Ev.iWait, Ev.mWait, Ev.mPost]) := by
  rw [pushState_not_full N E h h 0 it m p (by omega)]
  unfold pop
  rw [if_neg (by omega : ¬ it + 1 = 0)]
  simp only [Bool.false_eq_true, if_false]
  rw [memRead_memWrite (h * E) p m E hp]
  simp

/-- Witness for `push_pop_roundtrip` at a concrete input. -/
theorem push_pop_roundtrip_witness :
    pop false (pushState [3, 4] ⟨⟨1, 2, 0, 0, 0⟩, fun _ => 0, 0⟩) =
      some (some [3, 4],
        ⟨⟨1, 2, (0 + 1) % 1, (0 + 1) % 1, 0⟩, memWrite (0 * 2) 2 [3, 4] (fun _ => 0), 0⟩,
        [Ev.iWait, Ev.mWait, Ev.mPost]) :=
  push_pop_roundtrip 1 2 0 0 (fun _ => 0) [3, 4] (by omega) rfl

/-! ### C8: try_pop on an empty queue -/

/-- C8: when the items semaphore holds no claimable item, `try_pop` returns
failure at once with the state (head, tail, count, slots, items value)
untouched and the caller's buffer unwritten (result `none`); its event trace
is the single failed items trywait, containing no mutex operation at all. -/
theorem try_pop_empty_noop (mf : Bool) (s : QueueState) (h : s.items = 0) :
    try_pop mf s = (none, s, [Ev.iTryFail]) ∧
    Ev.mWait ∉ (try_pop mf s).2.2 ∧ Ev.mWaitFail ∉ (try_pop mf s).2.2 ∧
    Ev.mPost ∉ (try_pop mf s).2.2 := by
  unfold try_pop
  rw [if_pos h]
  simp

/-- Witness for `try_pop_empty_noop` at a concrete input. -/
theorem try_pop_empty_noop_witness :
    try_pop true (freshQueue 2 1) = (none, freshQueue 2 1, [Ev.iTryFail]) ∧
    Ev.mWait ∉ (try_pop true (freshQueue 2 1)).2.2 ∧
    Ev.mWaitFail ∉ (try_pop true (freshQueue 2 1)).2.2 ∧
    Ev.mPost ∉ (try_pop true (freshQueue 2 1)).2.2 :=
  try_pop_empty_noop true (freshQueue 2 1) rfl

/-! ### C9: failed mutex acquisition after a successful items claim -/

/-- C9: if `pop` or `try_pop` claims an item from the items semaphore but the
subsequent mutex wait fails, the items semaphore is re-posted and the call
returns failure with the shared state identical to the starting state (the
claimed item remains available; head, tail, count and slots untouched). -/
theorem pop_mutex_fail_rollback (s : QueueState) (h : 1 ≤ s.items) :
    try_pop true s = (none, s, [Ev.iTryOk, Ev.mWaitFail, Ev.iPost]) ∧
    pop true s = some (none, s, [Ev.iWait, Ev.mWaitFail, Ev.iPost]) := by
  obtain ⟨cb, mem, it⟩ := s
  have hit : 1 ≤ it := h
  have hs : ({ cb := cb, mem := mem, items := it } : QueueState) =
      { cb := cb, mem := mem, items := (it - 1) + 1 } := by
    have : (it - 1) + 1 = it := by omega
    rw [this]
  constructor
  · unfold try_pop
    rw [if_neg (by omega : ¬ it = 0)]
    simp only [if_true]
    rw [← hs]
  · unfold pop
    rw [if_neg (by omega : ¬ it = 0)]
    simp only [if_true]
    rw [← hs]

/-- Witness for `pop_mutex_fail_rollback` at a concrete input. -/
theorem pop_mutex_fail_rollback_witness :
    try_pop true ⟨⟨1, 1, 0, 0, 1⟩, fun _ => 0, 1⟩ =
      (none, ⟨⟨1, 1, 0, 0, 1⟩, fun _ => 0, 1⟩, [Ev.iTryOk, Ev.mWaitFail, Ev.iPost]) ∧
    pop true ⟨⟨1, 1, 0, 0, 1⟩, fun _ => 0, 1⟩ =
      some (none, ⟨⟨1, 1, 0, 0, 1⟩, fun _ => 0, 1⟩, [Ev.iWait, Ev.mWaitFail, Ev.iPost]) :=
  pop_mutex_fail_rollback ⟨⟨1, 1, 0, 0, 1⟩, fun _ => 0, 1⟩ (le_refl 1)

/-! ### C10: accessors on a released handle -/

/-- Per-process handle, shmem.h lines 127-132: the mapping address is
`Option`-valued (`none` models `m_addr == nullptr`); when mapped it gives the
control block the accessors would read. -/
structure SMQueueHandle where
  m_name : List Char
  m_addr : Option ControlBlock
  m_mutex : Bool
  m_items : Bool

/-- SMQueue::close, shmem.cpp lines 326-342: detaches both semaphores and
unmaps, nulling every member.  The destructor (line 191) just calls `close`. -/
def closeHandle (h : SMQueueHandle) : SMQueueHandle :=
  { h with m_mutex := false, m_items := false, m_addr := none }

/-- Move constructor, shmem.cpp lines 164-171: steals the members and nulls
the source.  Returns (destination, source-after-move). -/
def moveCtor (other : SMQueueHandle) : SMQueueHandle × SMQueueHandle :=
  (⟨other.m_name, other.m_addr, other.m_mutex, other.m_items⟩,
   { other with m_addr := none, m_mutex := false, m_items := false })

/-- Move assignment, shmem.cpp lines 174-188: closes the destination, steals
the members, nulls the source.  Returns (destination, source-after-move). -/
def moveAssign (_dst src : SMQueueHandle) : SMQueueHandle × SMQueueHandle :=
  (⟨src.m_name, src.m_addr, src.m_mutex, src.m_items⟩,
   { src with m_addr := none, m_mutex := false, m_items := false })

/-- SMQueue::max_elements, shmem.cpp line 345. -/
def maxElementsAcc (h : SMQueueHandle) : Nat :=
  match h.m_addr with
  | some cb => cb.max_elements
  | none => 0

/-- SMQueue::element_size, shmem.cpp line 348. -/
def elementSizeAcc (h : SMQueueHandle) : Nat :=
  match h.m_addr with
  | some cb => cb.element_size
  | none => 0

/-- C10: on a handle whose mapping was released — by `close` (also what the
destructor runs) or by being the source of a move construction or move
assignment — `max_elements()` and `element_size()` return 0. -/
theorem accessors_zero_after_release (h g : SMQueueHandle) :
    maxElementsAcc (closeHandle h) = 0 ∧ elementSizeAcc (closeHandle h) = 0 ∧
    maxElementsAcc (moveCtor h).2 = 0 ∧ elementSizeAcc (moveCtor h).2 = 0 ∧
    maxElementsAcc (moveAssign g h).2 = 0 ∧ elementSizeAcc (moveAssign g h).2 = 0 := by
  simp [maxElementsAcc, elementSizeAcc, closeHandle, moveCtor, moveAssign]

/-! ### C3: semaphore name derivation in create versus destroy -/

/-- Suffix appended to the mutex semaphore name (shmem.cpp lines 157, 407). -/
def mutexSuffix : List Char := ['_', 'm', 'u', 't', 'e', 'x']

/-- Suffix appended to the items semaphore name (shmem.cpp lines 158, 408). -/
def itemsSuffix : List Char := ['_', 'i', 't', 'e', 'm', 's']

/-- Remove a single leading slash (shmem.cpp lines 146-149 and 399-402). -/
def stripSlash (name : List Char) : List Char :=
  match name with
  | [] => []
  | c :: rest => if c = '/' then rest else c :: rest

/-- Truncation of the base name to 24 characters performed by `destroy`
(shmem.cpp lines 152-154); `init_semaphores` has no counterpart, only an
`assert` (line 404). -/
def truncate24 (l : List Char) : List Char :=
  if l.length > 24 then l.take 24 else l

/-- SMQueue::make_sem_name, shmem.cpp lines 383-394: appends the suffix; the
two `assert`s (no leading slash, total length at most 30) are modelled as the
success condition of the `Option`. -/
def makeSemName (name suffix : List Char) : Option (List Char) :=
  if (name = [] ∨ name.headI ≠ '/') ∧ (name ++ suffix).length ≤ 30 then
    some (name ++ suffix)
  else none

/-- Name derivation of SMQueue::init_semaphores (shmem.cpp lines 397-413), the
names that `create` stores into the control block: strip one leading slash,
`assert` the base is at most 24 characters (modelled as `none` on failure —
with assertions compiled in, `create` does not succeed past a failing
assert), build both suffixed names, and fail if either would not fit the
128-byte control-block buffer. -/
def createSemNames (name : List Char) : Option (List Char × List Char) :=
  if (stripSlash name).length ≤ 24 then
    match makeSemName (stripSlash name) mutexSuffix,
          makeSemName (stripSlash name) itemsSuffix with
    | some m, some i =>
        if m.length ≥ 128 ∨ i.length ≥ 128 then none else some (m, i)
    | _, _ => none
  else none

/-- Name derivation of SMQueue::destroy (shmem.cpp lines 145-158): strip one
leading slash, truncate the base to at most 24 characters, build both suffixed
names. -/
def destroySemNames (name : List Char) : Option (List Char × List Char) :=
  match makeSemName (truncate24 (stripSlash name)) mutexSuffix,
        makeSemName (truncate24 (stripSlash name)) itemsSuffix with
  | some m, some i => some (m, i)
  | _, _ => none

/-- C3: for every valid queue name (no space — both entry points reject spaced
names before deriving anything), whenever `create`'s derivation succeeds (so
`create` can succeed and store the two names), `destroy` re-derives exactly
the same two semaphore names. -/
theorem destroy_sem_names_match_create (name : List Char) (_hname : ' ' ∉ name)
    (m i : List Char) (h : createSemNames name = some (m, i)) :
    destroySemNames name = some (m, i) := by
  unfold createSemNames at h
  by_cases hb : (stripSlash name).length ≤ 24
  · rw [if_pos hb] at h
    have ht : truncate24 (stripSlash name) = stripSlash name := by
      unfold truncate24
      rw [if_neg (by omega)]
    unfold destroySemNames
    rw [ht]
    revert h
    rcases hm : makeSemName (stripSlash name) mutexSuffix with _ | m0 <;>
      rcases hi : makeSemName (stripSlash name) itemsSuffix with _ | i0 <;>
        simp only [] <;> intro h
    · exact absurd h (by simp)
    · exact absurd h (by simp)
    · exact absurd h (by simp)
    · by_cases hlen : m0.length ≥ 128 ∨ i0.length ≥ 128
      · rw [if_pos hlen] at h
        exact absurd h (by simp)
      · rw [if_neg hlen] at h
        simp only [Option.some.injEq, Prod.mk.injEq] at h
        rw [← h.1, ← h.2]
  · rw [if_neg hb] at h
    exact absurd h (by simp)

/-- Witness for `destroy_sem_names_match_create` at a concrete input. -/
theorem destroy_sem_names_match_create_witness :
    destroySemNames ['/', 'q'] =
      some ('q' :: mutexSuffix, 'q' :: itemsSuffix) :=
  destroy_sem_names_match_create ['/', 'q'] (by decide)
    ('q' :: mutexSuffix) ('q' :: itemsSuffix) (by decide)

/-! ### C5: the size-overflow guard in create -/

/-- Largest value of `std::size_t` on the 64-bit platforms the code targets. -/
def SIZE_MAX : Nat := 2 ^ 64 - 1

/-- First overflow guard of SMQueue::create, shmem.cpp line 13:
`max_elements > numeric_limits<size_t>::max() / element_size`.  The division
has no guard for `element_size == 0`; division by zero is undefined behaviour
in C++, modelled as `none`. -/
def overflowGuard1 (max_elements element_size : Nat) : Option Bool :=
  if element_size = 0 then none
  else some (decide (max_elements > SIZE_MAX / element_size))

/-- Second overflow guard of SMQueue::create, shmem.cpp line 28:
`header_size > numeric_limits<size_t>::max() - data_size` (both operands are
in range once the first guard has passed, so plain `Nat` arithmetic). -/
def overflowGuard2 (header_size data_size : Nat) : Bool :=
  header_size > SIZE_MAX - data_size

/-- Helper: for a nonzero element size the first guard fires exactly on the
products that overflow `std::size_t`. -/
theorem overflowGuard1_exact (me es : Nat) (hes : 1 ≤ es) :
    overflowGuard1 me es = some (decide (me * es > SIZE_MAX)) := by
  unfold overflowGuard1
  rw [if_neg (by omega)]
  congr 1
  rw [decide_eq_decide]
  exact Nat.div_lt_iff_lt_mul (by omega)

/-- C5 fails on the code: the guard's own evaluation is undefined at
`element_size = 0` (division by zero at shmem.cpp line 13), while for nonzero
element sizes it does reject exactly the overflowing products, here checked at
representative inputs on both sides of the 2^64 boundary, together with the
second guard. -/
theorem overflow_guard_divides_by_zero :
    overflowGuard1 5 0 = none ∧
    overflowGuard1 (2 ^ 32) (2 ^ 32) = some true ∧
    overflowGuard1 (2 ^ 32) (2 ^ 31) = some false ∧
    overflowGuard2 192 (2 ^ 32 * 2 ^ 31) = false ∧
    overflowGuard2 192 (SIZE_MAX - 100) = true := by
  refine ⟨rfl, ?_, ?_, ?_, ?_⟩ <;> decide

/-! ### C7: destroy on a name that does not exist -/

/-- OS environment seen by SMQueue::destroy: whether the shared-memory object
exists, whether `shm_open` fails with an error other than `ENOENT`, and
whether `fstat` fails. -/
structure DestroyEnv where
  shm_exists : Bool
  open_fails_other : Bool
  fstat_fails : Bool

/-- OS-visible actions destroy can take (closing its own descriptor included
for completeness). -/
inductive DestroyEv
  | close_fd
  | shm_unlink
  | sem_unlink_mutex
  | sem_unlink_items
deriving DecidableEq, Repr

/-- SMQueue::destroy, shmem.cpp lines 116-161, as a trace over `DestroyEnv`:
result `true` means normal return, `false` a thrown exception (or, in the
`destroySemNames = none` case, a failed assertion inside `make_sem_name`).
When the object does not exist (`shm_open` sets `ENOENT`) destroy returns
at once with no action taken. -/
def destroyTr (name : List Char) (env : DestroyEnv) : Bool × List DestroyEv :=
  if ' ' ∈ name then (false, [])
  else if env.shm_exists = false then
    if env.open_fails_other then (false, []) else (true, [])
  else if env.fstat_fails then (false, [DestroyEv.close_fd])
  else
    match destroySemNames name with
    | some _ =>
        (true, [DestroyEv.close_fd, DestroyEv.shm_unlink,
                DestroyEv.sem_unlink_mutex, DestroyEv.sem_unlink_items])
    | none => (false, [DestroyEv.close_fd, DestroyEv.shm_unlink])

/-- C7: for a valid name (no space) naming no existing shared-memory object,
`destroy` returns successfully and performs no OS-visible action at all. -/
theorem destroy_nonexistent_noop (name : List Char) (hname : ' ' ∉ name)
    (env : DestroyEnv) (h1 : env.shm_exists = false)
    (h2 : env.open_fails_other = false) :
    destroyTr name env = (true, []) := by
  unfold destroyTr
  rw [if_neg hname, if_pos (by rw [h1]), if_neg (by rw [h2]; exact Bool.false_ne_true)]

/-- Witness for `destroy_nonexistent_noop` at a concrete input. -/
theorem destroy_nonexistent_noop_witness :
    destroyTr ['q'] ⟨false, false, false⟩ = (true, []) :=
  destroy_nonexistent_noop ['q'] (by decide) ⟨false, false, false⟩ rfl rfl

/-! ### C4: unwinding of a failed create -/

/-- Failure injection for the fallible OS calls made by SMQueue::create
(after the two argument checks; `overflow2` stands for the data-dependent
second overflow guard at shmem.cpp line 28). -/
structure CreateEnv where
  shm_open_fails : Bool
  overflow2 : Bool
  ftruncate_fails : Bool
  mmap_fails : Bool
  sem_open_mutex_fails : Bool
  sem_open_items_fails : Bool

/-- Value of a `sem_t*` member: `nullptr`, `SEM_FAILED`, or a valid
descriptor. -/
inductive SemPtr
  | null
  | failed
  | valid
deriving DecidableEq, Repr

/-- OS-visible actions during create. -/
inductive OsEv
  | shm_open_ok
  | close_fd
  | shm_unlink
  | mmap_ok
  | munmap
  | sem_unlink_mutex
  | sem_unlink_items
  | sem_open_mutex_ok
  | sem_open_items_ok
  | sem_close_mutex
  | sem_close_items
deriving DecidableEq, Repr

/-- SMQueue::close, shmem.cpp lines 326-342, as run by the destructor during
stack unwinding: closes whichever semaphore members are non-null (note:
`SEM_FAILED` is not `nullptr`, so a member holding `SEM_FAILED` is also
"closed") and unmaps if `m_addr` is non-null. -/
def closeEvents (m_mutex m_items : SemPtr) (m_addr : Bool) : List OsEv :=
  (if m_mutex ≠ SemPtr.null then [OsEv.sem_close_mutex] else []) ++
  (if m_items ≠ SemPtr.null then [OsEv.sem_close_items] else []) ++
  (if m_addr then [OsEv.munmap] else [])

/-- SMQueue::init_semaphores, shmem.cpp lines 397-438, as a trace: returns
(success, value of `m_mutex` member, value of `m_items` member, events).  On
an items-semaphore failure the code closes and unlinks the mutex semaphore
before throwing; the members keep the values already assigned
(`m_mutex = valid`, `m_items = SEM_FAILED`). -/
def initSemaphoresTr (env : CreateEnv) : Bool × SemPtr × SemPtr × List OsEv :=
  if env.sem_open_mutex_fails then
    (false, SemPtr.failed, SemPtr.null,
     [OsEv.sem_unlink_mutex, OsEv.sem_unlink_items])
  else if env.sem_open_items_fails then
    (false, SemPtr.valid, SemPtr.failed,
     [OsEv.sem_unlink_mutex, OsEv.sem_unlink_items, OsEv.sem_open_mutex_ok,
      OsEv.sem_close_mutex, OsEv.sem_unlink_mutex])
  else
    (true, SemPtr.valid, SemPtr.valid,
     [OsEv.sem_unlink_mutex, OsEv.sem_unlink_items, OsEv.sem_open_mutex_ok,
      OsEv.sem_open_items_ok])

/-- SMQueue::create, shmem.cpp lines 6-72, as a trace over `CreateEnv`
(valid name and first overflow guard already passed — those paths acquire
nothing).  When `init_semaphores` throws inside the `try` block, the local
`queue` object is destroyed during stack unwinding (its destructor runs
`close()`, emitting `closeEvents` with `m_addr` still set), and only then the
`catch` block runs `safe_close(fd)`, `munmap(addr, total_size)` (the local
`addr` is still non-null) and `shm_unlink`. -/
def createTr (env : CreateEnv) : Bool × List OsEv :=
  if env.shm_open_fails then (false, [])
  else if env.overflow2 then
    (false, [OsEv.shm_open_ok, OsEv.close_fd, OsEv.shm_unlink])
  else if env.ftruncate_fails then
    (false, [OsEv.shm_open_ok, OsEv.close_fd, OsEv.shm_unlink])
  else if env.mmap_fails then
    (false, [OsEv.shm_open_ok, OsEv.close_fd, OsEv.shm_unlink])
  else
    match initSemaphoresTr env with
    | (true, _, _, sevs) =>
        (true, [OsEv.shm_open_ok, OsEv.mmap_ok] ++ sevs ++ [OsEv.close_fd])
    | (false, m_mutex, m_items, sevs) =>
        (false, [OsEv.shm_open_ok, OsEv.mmap_ok] ++ sevs ++
          closeEvents m_mutex m_items true ++
          [OsEv.close_fd, OsEv.munmap, OsEv.shm_unlink])

/-- C4 fails on the code: when create fails during `init_semaphores` (items
semaphore creation fails), the mapping is released twice — once by the local
queue's destructor during unwinding and once by the catch block — and the
mutex semaphore descriptor is closed twice; with a mutex-semaphore failure
the destructor even closes a member holding `SEM_FAILED`.  By contrast the
earlier failure points (shown here for a failing mmap) do release everything
exactly once.  The shared-memory object itself is unlinked exactly once in
all cases (nothing leaks; releases are just not unique). -/
theorem create_unwind_releases_twice :
    ((createTr ⟨false, false, false, false, false, true⟩).1 = false ∧
     ((createTr ⟨false, false, false, false, false, true⟩).2.count OsEv.munmap = 2 ∧
      (createTr ⟨false, false, false, false, false, true⟩).2.count OsEv.sem_close_mutex = 2 ∧
      (createTr ⟨false, false, false, false, false, true⟩).2.count OsEv.shm_unlink = 1)) ∧
    ((createTr ⟨false, false, false, false, true, false⟩).2.count OsEv.munmap = 2 ∧
     (createTr ⟨false, false, false, false, true, false⟩).2.count OsEv.sem_close_mutex = 1) ∧
    ((createTr ⟨false, false, false, true, false, false⟩).1 = false ∧
     (createTr ⟨false, false, false, true, false, false⟩).2.count OsEv.munmap = 0 ∧
     (createTr ⟨false, false, false, true, false, false⟩).2.count OsEv.close_fd = 1 ∧
     (createTr ⟨false, false, false, true, false, false⟩).2.count OsEv.shm_unlink = 1) := by
  decide

/-! ### C2: the count / head / tail relation on reachable states -/

/-- Unfolding of `push` on a full queue. -/
theorem push_full_eq (N E hd tl c it : Nat) (m : Nat → Nat) (d : List Nat)
    (hc : N ≤ c) :
    push false d ⟨⟨N, E, hd, tl, c⟩, m, it⟩ =
      (some (false, ⟨⟨N, E, (hd + 1) % N, (tl + 1) % N, (c - 1) + 1⟩,
        memWrite (hd * E) E d m, (it - 1) + 1⟩),
       [Ev.mWait, if 0 < it then Ev.iTryOk else Ev.iTryFail, Ev.iPost, Ev.mPost]) := by
  unfold push
  simp [hc]

/-- Unfolding of `push` on a non-full queue. -/
theorem push_not_full_eq (N E hd tl c it : Nat) (m : Nat → Nat) (d : List Nat)
    (hc : c < N) :
    push false d ⟨⟨N, E, hd, tl, c⟩, m, it⟩ =
      (some (true, ⟨⟨N, E, (hd + 1) % N, tl, c + 1⟩, memWrite (hd * E) E d m, it + 1⟩),
       [Ev.mWait, Ev.iPost, Ev.mPost]) := by
  unfold push
  simp [Nat.not_le.mpr hc]

/-- Unfolding of `try_pop` when no item is claimable. -/
theorem try_pop_zero_eq (mf : Bool) (s : QueueState) (h : s.items = 0) :
    try_pop mf s = (none, s, [Ev.iTryFail]) := by
  unfold try_pop
  rw [if_pos h]

/-- Unfolding of `try_pop` when the claim succeeds but the mutex wait fails. -/
theorem try_pop_mfail_eq (N E hd tl c it : Nat) (m : Nat → Nat) (h : it ≠ 0) :
    try_pop true ⟨⟨N, E, hd, tl, c⟩, m, it⟩ =
      (none, ⟨⟨N, E, hd, tl, c⟩, m, (it - 1) + 1⟩,
       [Ev.iTryOk, Ev.mWaitFail, Ev.iPost]) := by
  unfold try_pop
  simp [h]

/-- Unfolding of the success path of `try_pop`. -/
theorem try_pop_ok_eq (N E hd tl c it : Nat) (m : Nat → Nat) (h : it ≠ 0) :
    try_pop false ⟨⟨N, E, hd, tl, c⟩, m, it⟩ =
      (some (memRead (tl * E) E m), ⟨⟨N, E, hd, (tl + 1) % N, c - 1⟩, m, it - 1⟩,
       [Ev.iTryOk, Ev.mWait, Ev.mPost]) := by
  unfold try_pop
  simp [h]

/-- Unfolding of `pop` on an empty queue (blocks; no sequential result). -/
theorem pop_zero_eq (mf : Bool) (s : QueueState) (h : s.items = 0) :
    pop mf s = none := by
  unfold pop
  rw [if_pos h]

/-- Unfolding of `pop` when the items wait succeeds but the mutex wait fails. -/
theorem pop_mfail_eq (N E hd tl c it : Nat) (m : Nat → Nat) (h : it ≠ 0) :
    pop true ⟨⟨N, E, hd, tl, c⟩, m, it⟩ =
      some (none, ⟨⟨N, E, hd, tl, c⟩, m, (it - 1) + 1⟩,
        [Ev.iWait, Ev.mWaitFail, Ev.iPost]) := by
  unfold pop
  simp [h]

/-- Unfolding of the success path of `pop`. -/
theorem pop_ok_eq (N E hd tl c it : Nat) (m : Nat → Nat) (h : it ≠ 0) :
    pop false ⟨⟨N, E, hd, tl, c⟩, m, it⟩ =
      some (some (memRead (tl * E) E m),
        ⟨⟨N, E, hd, (tl + 1) % N, c - 1⟩, m, it - 1⟩,
        [Ev.iWait, Ev.mWait, Ev.mPost]) := by
  unfold pop
  simp [h]

/-- One observable call on the queue: any completed `push`, `try_pop` or `pop`
(including the injected-failure outcomes). -/
inductive Step : QueueState → QueueState → Prop
  | push_step (mf : Bool) (d : List Nat) {r : Bool} {s s' : QueueState}
      {evs : List Ev} (h : push mf d s = (some (r, s'), evs)) : Step s s'
  | try_pop_step (mf : Bool) {out : Option (List Nat)} {s s' : QueueState}
      {evs : List Ev} (h : try_pop mf s = (out, s', evs)) : Step s s'
  | pop_step (mf : Bool) {out : Option (List Nat)} {s s' : QueueState}
      {evs : List Ev} (h : pop mf s = some (out, s', evs)) : Step s s'

/-- States reachable from a freshly created queue (capacity at least one) by
any sequence of push / pop / try_pop calls. -/
inductive Reachable : QueueState → Prop
  | init (N E : Nat) (hN : 1 ≤ N) : Reachable (freshQueue N E)
  | step {s s' : QueueState} (hr : Reachable s) (hs : Step s s') : Reachable s'

/-- The inductive invariant: indices in range, count bounded by the capacity,
items semaphore bounded by count, and count congruent to head minus tail
modulo the capacity. -/
def Inv (s : QueueState) : Prop :=
  1 ≤ s.cb.max_elements ∧ s.cb.head < s.cb.max_elements ∧
  s.cb.tail < s.cb.max_elements ∧ s.cb.count ≤ s.cb.max_elements ∧
  s.items ≤ s.cb.count ∧
  Int.ModEq (s.cb.max_elements : ℤ) (s.cb.count : ℤ)
    ((s.cb.head : ℤ) - (s.cb.tail : ℤ))

theorem modeq_mod_cast (N a : Nat) :
    Int.ModEq (N : ℤ) (((a % N : Nat) : ℤ)) (a : ℤ) := by
  rw [Int.natCast_mod]
  exact Int.mod_modEq _ _

theorem inv_init (N E : Nat) (hN : 1 ≤ N) : Inv (freshQueue N E) := by
  refine ⟨hN, hN, hN, Nat.zero_le _, le_refl 0, ?_⟩
  show Int.ModEq (N : ℤ) ((0 : ℕ) : ℤ) (((0 : ℕ) : ℤ) - ((0 : ℕ) : ℤ))
  simp [Int.ModEq]

theorem inv_step {s s' : QueueState} (hi : Inv s) (hst : Step s s') : Inv s' := by
  obtain ⟨⟨N, E, hd, tl, c⟩, mem, it⟩ := s
  obtain ⟨hN, hh, ht, hc, hit, hmod⟩ := hi
  dsimp only at hN hh ht hc hit hmod
  cases hst with
  | push_step mf d h =>
    cases mf with
    | true => simp [push] at h
    | false =>
      rcases Nat.lt_or_ge c N with hfull | hfull
      · rw [push_not_full_eq N E hd tl c it mem d hfull] at h
        simp only [Prod.mk.injEq, Option.some.injEq] at h
        obtain ⟨⟨hr, hs'⟩, hevs⟩ := h
        subst hs'
        dsimp only [Inv]
        refine ⟨hN, Nat.mod_lt _ (by omega), ht, by omega, by omega, ?_⟩
        show Int.ModEq (N : ℤ) (((c + 1 : ℕ)) : ℤ)
          ((((hd + 1) % N : ℕ) : ℤ) - (tl : ℤ))
        have m1 := modeq_mod_cast N (hd + 1)
        rw [show ((hd + 1 : ℕ) : ℤ) = (hd : ℤ) + 1 by push_cast; ring] at m1
        rw [show ((c + 1 : ℕ) : ℤ) = (c : ℤ) + 1 by push_cast; ring]
        have step1 : Int.ModEq (N : ℤ) ((c : ℤ) + 1) (((hd : ℤ) + 1) - tl) := by
          have h2 := hmod.add_right 1
          rw [show ((hd : ℤ) - tl) + 1 = ((hd : ℤ) + 1) - tl by ring] at h2
          exact h2
        exact step1.trans ((m1.sub_right (tl : ℤ)).symm)
      · rw [push_full_eq N E hd tl c it mem d hfull] at h
        simp only [Prod.mk.injEq, Option.some.injEq] at h
        obtain ⟨⟨hr, hs'⟩, hevs⟩ := h
        subst hs'
        dsimp only [Inv]
        refine ⟨hN, Nat.mod_lt _ (by omega), Nat.mod_lt _ (by omega), by omega,
          by omega, ?_⟩
        show Int.ModEq (N : ℤ) (((c - 1 + 1 : ℕ)) : ℤ)
          ((((hd + 1) % N : ℕ) : ℤ) - (((tl + 1) % N : ℕ) : ℤ))
        rw [show ((c - 1 + 1 : ℕ) : ℤ) = (c : ℤ) by
          have : c - 1 + 1 = c := by omega
          rw [this]]
        have m1 := modeq_mod_cast N (hd + 1)
        have m2 := modeq_mod_cast N (tl + 1)
        rw [show ((hd + 1 : ℕ) : ℤ) = (hd : ℤ) + 1 by push_cast; ring] at m1
        rw [show ((tl + 1 : ℕ) : ℤ) = (tl : ℤ) + 1 by push_cast; ring] at m2
        have m3 := m1.sub m2
        rw [show ((hd : ℤ) + 1) - ((tl : ℤ) + 1) = (hd : ℤ) - tl by ring] at m3
        exact hmod.trans m3.symm
  | try_pop_step mf h =>
    rcases Nat.eq_zero_or_pos it with hiz | hiz
    · rw [try_pop_zero_eq mf _ hiz] at h
      simp only [Prod.mk.injEq] at h
      obtain ⟨ho, hs', hevs⟩ := h
      subst hs'
      exact ⟨hN, hh, ht, hc, hit, hmod⟩
    · cases mf with
      | true =>
        rw [try_pop_mfail_eq N E hd tl c it mem (by omega)] at h
        simp only [Prod.mk.injEq] at h
        obtain ⟨ho, hs', hevs⟩ := h
        subst hs'
        dsimp only [Inv]
        exact ⟨hN, hh, ht, hc, by omega, hmod⟩
      | false =>
        rw [try_pop_ok_eq N E hd tl c it mem (by omega)] at h
        simp only [Prod.mk.injEq] at h
        obtain ⟨ho, hs', hevs⟩ := h
        subst hs'
        dsimp only [Inv]
        refine ⟨hN, hh, Nat.mod_lt _ (by omega), by omega, by omega, ?_⟩
        show Int.ModEq (N : ℤ) (((c - 1 : ℕ)) : ℤ)
          ((hd : ℤ) - (((tl + 1) % N : ℕ) : ℤ))
        rw [Nat.cast_sub (by omega : 1 ≤ c)]
        have m2 := modeq_mod_cast N (tl + 1)
        rw [show ((tl + 1 : ℕ) : ℤ) = (tl : ℤ) + 1 by push_cast; ring] at m2
        have h2 := hmod.sub_right 1
        rw [show ((hd : ℤ) - tl) - 1 = (hd : ℤ) - ((tl : ℤ) + 1) by ring] at h2
        have m3 := (Int.ModEq.refl (hd : ℤ)).sub m2
        push_cast at h2 m3 ⊢
        exact h2.trans m3.symm
  | pop_step mf h =>
    rcases Nat.eq_zero_or_pos it with hiz | hiz
    · rw [pop_zero_eq mf _ hiz] at h
      exact absurd h (by simp)
    · cases mf with
      | true =>
        rw [pop_mfail_eq N E hd tl c it mem (by omega)] at h
        simp only [Option.some.injEq, Prod.mk.injEq] at h
        obtain ⟨ho, hs', hevs⟩ := h
        subst hs'
        dsimp only [Inv]
        exact ⟨hN, hh, ht, hc, by omega, hmod⟩
      | false =>
        rw [pop_ok_eq N E hd tl c it mem (by omega)] at h
        simp only [Option.some.injEq, Prod.mk.injEq] at h
        obtain ⟨ho, hs', hevs⟩ := h
        subst hs'
        dsimp only [Inv]
        refine ⟨hN, hh, Nat.mod_lt _ (by omega), by omega, by omega, ?_⟩
        show Int.ModEq (N : ℤ) (((c - 1 : ℕ)) : ℤ)
          ((hd : ℤ) - (((tl + 1) % N : ℕ) : ℤ))
        rw [Nat.cast_sub (by omega : 1 ≤ c)]
        have m2 := modeq_mod_cast N (tl + 1)
        rw [show ((tl + 1 : ℕ) : ℤ) = (tl : ℤ) + 1 by push_cast; ring] at m2
        have h2 := hmod.sub_right 1
        rw [show ((hd : ℤ) - tl) - 1 = (hd : ℤ) - ((tl : ℤ) + 1) by ring] at h2
        have m3 := (Int.ModEq.refl (hd : ℤ)).sub m2
        push_cast at h2 m3 ⊢
        exact h2.trans m3.symm

theorem reachable_inv {s : QueueState} (h : Reachable s) : Inv s := by
  induction h with
  | init N E hN => exact inv_init N E hN
  | step hr hst ih => exact inv_step ih hst

/-- C2 counterexample: the claimed unreduced equation fails when the queue is
full.  From a fresh capacity-2 queue, two pushes reach a state with
`count = 2`, `head = tail = 0`, where `(head - tail) mod max_elements = 0`,
not 2. -/
theorem count_mod_relation_fails_when_full :
    Reachable (pushState [5] (pushState [5] (freshQueue 2 1))) ∧
    (pushState [5] (pushState [5] (freshQueue 2 1))).cb.count ≠
      ((pushState [5] (pushState [5] (freshQueue 2 1))).cb.head -
       (pushState [5] (pushState [5] (freshQueue 2 1))).cb.tail) %
      (pushState [5] (pushState [5] (freshQueue 2 1))).cb.max_elements := by
  constructor
  · exact Reachable.step
      (Reachable.step (Reachable.init 2 1 (by omega))
        (Step.push_step false [5] rfl))
      (Step.push_step false [5] rfl)
  · decide

/-- C2 amended: on every reachable state, `count` is congruent to
`head - tail` modulo `max_elements` (as integers; the unreduced equation
`count = (head - tail) mod max_elements` fails when the queue is full), with
`count ≤ max_elements`; in particular, when the queue is full
(`count = max_elements`) the congruence forces `head = tail`. -/
theorem count_mod_relation_reachable (s : QueueState) (h : Reachable s) :
    s.cb.count ≤ s.cb.max_elements ∧
    Int.ModEq (s.cb.max_elements : ℤ) (s.cb.count : ℤ)
      ((s.cb.head : ℤ) - (s.cb.tail : ℤ)) ∧
    (s.cb.count = s.cb.max_elements → s.cb.head = s.cb.tail) := by
  obtain ⟨hN, hh, ht, hc, hit, hmod⟩ := reachable_inv h
  refine ⟨hc, hmod, ?_⟩
  intro hfull
  have h0 : Int.ModEq (s.cb.max_elements : ℤ) (s.cb.count : ℤ) 0 := by
    rw [hfull]
    show ((s.cb.max_elements : ℤ)) % _ = (0 : ℤ) % _
    simp
  have hdvd : (s.cb.max_elements : ℤ) ∣ ((s.cb.head : ℤ) - s.cb.tail) := by
    have := (h0.symm.trans hmod).dvd
    simpa using this
  have habs : |((s.cb.head : ℤ) - s.cb.tail)| < (s.cb.max_elements : ℤ) :=
    abs_lt.mpr ⟨by omega, by omega⟩
  have := Int.eq_zero_of_abs_lt_dvd hdvd habs
  omega

/-- Witness for `count_mod_relation_reachable` at a concrete reachable state. -/
theorem count_mod_relation_reachable_witness :
    (freshQueue 1 1).cb.count ≤ (freshQueue 1 1).cb.max_elements ∧
    Int.ModEq ((freshQueue 1 1).cb.max_elements : ℤ)
      ((freshQueue 1 1).cb.count : ℤ)
      (((freshQueue 1 1).cb.head : ℤ) - ((freshQueue 1 1).cb.tail : ℤ)) ∧
    ((freshQueue 1 1).cb.count = (freshQueue 1 1).cb.max_elements →
      (freshQueue 1 1).cb.head = (freshQueue 1 1).cb.tail) :=
  count_mod_relation_reachable (freshQueue 1 1) (Reachable.init 1 1 (le_refl 1))

/-! ### C1: eviction and full drain -/

/-- After pushing payloads `p 1 .. p k` (for `k ≤ N`) into a fresh queue,
head is `k % N`, tail 0, count and items are `k`, and slot `i` holds
`p (i+1)` for every `i < k`. -/
theorem pushPhase (N E : Nat) (_hN : 1 ≤ N) (p : Nat → List Nat)
    (hp : ∀ i, (p i).length = E) :
    ∀ k, k ≤ N →
      ∃ m : Nat → Nat,
        pushList ((List.range k).map fun i => p (i + 1)) (freshQueue N E) =
          ⟨⟨N, E, k % N, 0, k⟩, m, k⟩ ∧
        ∀ i, i < k → memRead (i * E) E m = p (i + 1) := by
  intro k
  induction k with
  | zero =>
    intro _
    refine ⟨fun _ => 0, ?_, ?_⟩
    · simp [pushList, freshQueue]
    · intro i hi
      omega
  | succ k ih =>
    intro hk
    obtain ⟨m, hs, hmem⟩ := ih (by omega)
    rw [Nat.mod_eq_of_lt (by omega : k < N)] at hs
    refine ⟨memWrite (k * E) E (p (k + 1)) m, ?_, ?_⟩
    · rw [List.range_succ, List.map_append]
      unfold pushList
      rw [List.foldl_append]
      show pushState (p (k + 1))
        (pushList ((List.range k).map fun i => p (i + 1)) (freshQueue N E)) = _
      rw [hs, pushState_not_full N E k 0 k k m (p (k + 1)) (by omega)]
    · intro i hi
      rcases Nat.lt_or_ge i k with hik | hik
      · rw [memRead_memWrite_of_disjoint (i * E) E (k * E) E (p (k + 1)) m
          (Or.inl (by
            have h2 : (i + 1) * E ≤ k * E := Nat.mul_le_mul_right E (by omega)
            have h3 : i * E + E = (i + 1) * E := by ring
            omega))]
        exact hmem i hik
      · have hik2 : i = k := by omega
        subst hik2
        exact memRead_memWrite (i * E) (p (i + 1)) m E (hp (i + 1))

/-- After pushing payloads `p 1 .. p (N+1)` into a fresh queue, head and tail
are both `1 % N`, count and items are `N`, and the slot at ring position
`(1 % N + j) % N` holds `p (j+2)` for every `j < N` (slot 0 was overwritten
by `p (N+1)`, the remaining slots still hold `p 2 .. p N`). -/
theorem finalPushState (N E : Nat) (hN : 1 ≤ N) (p : Nat → List Nat)
    (hp : ∀ i, (p i).length = E) :
    ∃ m : Nat → Nat,
      pushList ((List.range (N + 1)).map fun i => p (i + 1)) (freshQueue N E) =
        ⟨⟨N, E, 1 % N, 1 % N, N⟩, m, N⟩ ∧
      ∀ j, j < N → memRead (((1 % N + j) % N) * E) E m = p (j + 2) := by
  obtain ⟨m, hs, hmem⟩ := pushPhase N E hN p hp N (le_refl N)
  rw [Nat.mod_self] at hs
  refine ⟨memWrite 0 E (p (N + 1)) m, ?_, ?_⟩
  · rw [List.range_succ, List.map_append]
    unfold pushList
    rw [List.foldl_append]
    show pushState (p (N + 1))
      (pushList ((List.range N).map fun i => p (i + 1)) (freshQueue N E)) = _
    rw [hs, pushState_full N E 0 0 N N m (p (N + 1)) (le_refl N)]
    rw [show N - 1 + 1 = N by omega, Nat.zero_add, Nat.zero_mul]
  · intro j hj
    rcases Nat.lt_or_ge (j + 1) N with hjN | hjN
    · have hidx : (1 % N + j) % N = j + 1 := by
        rw [Nat.mod_add_mod, Nat.mod_eq_of_lt (by omega)]
        omega
      rw [hidx]
      rw [memRead_memWrite_of_disjoint ((j + 1) * E) E 0 E (p (N + 1)) m
        (Or.inr (by
          have h2 : 1 * E ≤ (j + 1) * E := Nat.mul_le_mul_right E (by omega)
          omega))]
      have := hmem (j + 1) hjN
      rw [this]
    · have hidx : (1 % N + j) % N = 0 := by
        rw [Nat.mod_add_mod, show 1 + j = N by omega, Nat.mod_self]
      rw [hidx, Nat.zero_mul, show j + 2 = N + 1 by omega]
      exact memRead_memWrite 0 (p (N + 1)) m E (hp (N + 1))

/-- Draining a queue whose items value equals its count `c ≤ N` yields, in
order, exactly the contents of the `c` ring positions starting at `tail`. -/
theorem drainN_spec (N E : Nat) :
    ∀ (c t hd : Nat) (q : Nat → List Nat) (m : Nat → Nat),
      c ≤ N → t < N →
      (∀ j, j < c → memRead (((t + j) % N) * E) E m = q j) →
      drainN c ⟨⟨N, E, hd, t, c⟩, m, c⟩ =
        ((List.range c).map q, ⟨⟨N, E, hd, (t + c) % N, 0⟩, m, 0⟩) := by
  intro c
  induction c with
  | zero =>
    intro t hd q m hc ht hslots
    simp only [drainN, List.range_zero, List.map_nil]
    rw [Nat.add_zero, Nat.mod_eq_of_lt ht]
  | succ c ih =>
    intro t hd q m hc ht hslots
    have h0 := hslots 0 (by omega)
    rw [Nat.add_zero, Nat.mod_eq_of_lt ht] at h0
    have htp := try_pop_ok_eq N E hd t (c + 1) (c + 1) m (by omega)
    simp only [drainN]
    rw [htp]
    dsimp only
    simp only [Nat.add_sub_cancel]
    have hih := ih ((t + 1) % N) hd (fun j => q (j + 1)) m (by omega)
      (Nat.mod_lt _ (by omega)) (by
        intro j hj
        rw [Nat.mod_add_mod, show t + 1 + j = t + (j + 1) by omega]
        exact hslots (j + 1) (by omega))
    rw [hih]
    have hlist : (List.range (c + 1)).map q =
        q 0 :: (List.range c).map (fun j => q (j + 1)) := by
      rw [List.range_succ_eq_map, List.map_cons, List.map_map]
      rfl
    have hmod2 : ((t + 1) % N + c) % N = (t + (c + 1)) % N := by
      rw [Nat.mod_add_mod]
      congr 1
      omega
    rw [h0, hlist, hmod2]

/-- C1: for every capacity `N ≥ 1` and payloads `p 1 .. p (N+1)` of length
`element_size` pushed in order into a fresh queue: each of the first `N`
pushes returns `true`; the `(N+1)`-th returns `false` (the oldest payload is
dropped); draining with `try_pop` until empty yields exactly `p 2 .. p (N+1)`
in push order (a further `try_pop` fails), and in particular never yields
`p 1` when `p 1` differs from the later payloads. -/
theorem eviction_pattern (N E : Nat) (hN : 1 ≤ N) (p : Nat → List Nat)
    (hp : ∀ i, (p i).length = E) :
    (∀ k, k < N →
      pushRet (p (k + 1))
        (pushList ((List.range k).map fun i => p (i + 1)) (freshQueue N E)) = true) ∧
    pushRet (p (N + 1))
      (pushList ((List.range N).map fun i => p (i + 1)) (freshQueue N E)) = false ∧
    (drainN N
      (pushList ((List.range (N + 1)).map fun i => p (i + 1)) (freshQueue N E))).1 =
      (List.range N).map (fun j => p (j + 2)) ∧
    (try_pop false
      (drainN N
        (pushList ((List.range (N + 1)).map fun i => p (i + 1)) (freshQueue N E))).2).1 =
      none ∧
    ((∀ i, 2 ≤ i → p i ≠ p 1) →
      p 1 ∉ (drainN N
        (pushList ((List.range (N + 1)).map fun i => p (i + 1)) (freshQueue N E))).1) := by
  obtain ⟨mF, hsF, hmemF⟩ := finalPushState N E hN p hp
  have hdrain := drainN_spec N E N (1 % N) (1 % N) (fun j => p (j + 2)) mF
    (le_refl N) (Nat.mod_lt _ (by omega)) hmemF
  refine ⟨?_, ?_, ?_, ?_, ?_⟩
  · intro k hk
    obtain ⟨m, hs, _⟩ := pushPhase N E hN p hp k (by omega)
    rw [hs]
    exact pushRet_not_full N E (k % N) 0 k k m (p (k + 1)) hk
  · obtain ⟨m, hs, _⟩ := pushPhase N E hN p hp N (le_refl N)
    rw [hs]
    exact pushRet_full N E (N % N) 0 N N m (p (N + 1)) (le_refl N)
  · rw [hsF, hdrain]
  · rw [hsF, hdrain]
    dsimp only
    rw [try_pop_zero_eq false _ rfl]
  · intro hne
    rw [hsF, hdrain]
    dsimp only
    simp only [List.mem_map, List.mem_range]
    rintro ⟨j, hj, hEq⟩
    exact hne (j + 2) (by omega) hEq

/-- Witness for `eviction_pattern` at capacity 1, slot size 1,
payloads `p i = [i]`. -/
theorem eviction_pattern_witness :
    pushRet [1] (pushList [] (freshQueue 1 1)) = true ∧
    pushRet [2] (pushList [[1]] (freshQueue 1 1)) = false ∧
    (drainN 1 (pushList [[1], [2]] (freshQueue 1 1))).1 = [[2]] ∧
    (try_pop false (drainN 1 (pushList [[1], [2]] (freshQueue 1 1))).2).1 = none := by
  have h := eviction_pattern 1 1 (le_refl 1) (fun i => [i]) (fun i => rfl)
  obtain ⟨h1, h2, h3, h4, h5⟩ := h
  refine ⟨?_, ?_, ?_, ?_⟩
  · have := h1 0 (by omega)
    simpa using this
  · simpa using h2
  · simpa using h3
  · simpa using h4

end Shmem
